import Mathlib

/-!
Verification of the Identity Matching & Enrollment Engine of
`rsub122/advfacialrec` (`src/app/page.tsx`), via a shallow embedding.

Modelling conventions:
* A JS `Float32Array` descriptor is modelled as `Array ℚ`; a plain JS
  numeric array (the serialized form) as `List ℚ`.  JS numbers are
  modelled as rationals.
* `faceapi.euclideanDistance` lives in the external `face-api.js`
  library (not in this repository), so the matcher is parameterized by
  an arbitrary distance function `d : Emb → Emb → ℚ`; theorems about the
  scan quantify over `d`.
* React `useState` state: `startDetection` creates the interval
  callback once, and the callback closes over the `lastDetectedPerson`
  value of that render.  Later `setLastDetectedPerson` calls re-render
  the component with a new value but never change what the long-lived
  callback reads (the stale closure), so the comparison value is fixed
  for the whole session, while the rendered state itself is determined
  by the last setter call of each callback run.
-/

namespace FacialRec

/-- A face descriptor (JS `Float32Array` of numbers). -/
abbrev Emb := Array ℚ

/-- `Person` record from `page.tsx` lines 18-22: name, descriptor list,
Base64 photo list. -/
structure Person where
  name : String
  descriptors : List Emb
  photos : List String
deriving DecidableEq, Repr

/-- The `bestMatch` record of `startDetection` line 508:
`{ label, distance }`. -/
structure MatchCand where
  label : String
  distance : ℚ
deriving DecidableEq, Repr

/-- The matcher scan of `startDetection` lines 507-519: `bestMatch`
starts as `{ label: "unknown", distance: 1.0 }` and is replaced whenever
an enrolled descriptor lies strictly closer than the running best.
`d` stands for the library call `faceapi.euclideanDistance(descriptor,
detection.descriptor)`. -/
def findBestMatch (d : Emb → Emb → ℚ) (ps : List Person) (obs : Emb) : MatchCand :=
  ps.foldl
    (fun bm p =>
      p.descriptors.foldl
        (fun bm' desc => if d desc obs < bm'.distance then ⟨p.name, d desc obs⟩ else bm') bm)
    ⟨"unknown", 1⟩

/-- Line 524: `isMatch = bestMatch.distance < 1 - confidenceThreshold`. -/
def isMatchOf (bm : MatchCand) (t : ℚ) : Bool :=
  bm.distance < 1 - t

/-- The acceptance gate of line 533 (without the notifications toggle):
`isMatch && bestMatch.label !== "unknown"`. -/
def isAccepted (bm : MatchCand) (t : ℚ) : Bool :=
  isMatchOf bm t && bm.label != "unknown"

/-- One per-face step of the detection cycle, lines 532-544.  `last0` is
the `lastDetectedPerson` value the callback's closure captured when the
session started (re-renders never change it); the accumulator carries
the pending rendered-state value and the emitted events. -/
def cycleStep (t : ℚ) (enabled : Bool) (last0 : Option String)
    (acc : Option String × List String) (bm : MatchCand) : Option String × List String :=
  if isMatchOf bm t && bm.label != "unknown" && enabled then
    if some bm.label ≠ last0 then (some bm.label, acc.2 ++ [bm.label]) else acc
  else if !(isMatchOf bm t) then (none, acc.2)
  else acc

/-- One detection cycle, lines 489-545, in the special case where the
closure-captured comparison value and the entering rendered state
coincide (as they do on the first cycle of a session, and in every
scenario that never consults the comparison value).  With zero
detections the callback returns early (line 501) WITHOUT touching
`lastDetectedPerson`; otherwise each face is matched and fed to
`cycleStep`. -/
def runCycle (d : Emb → Emb → ℚ) (t : ℚ) (enabled : Bool) (ps : List Person)
    (last0 : Option String) (faces : List Emb) : Option String × List String :=
  if faces = [] then (last0, [])
  else faces.foldl (fun acc obs => cycleStep t enabled last0 acc (findBestMatch d ps obs)) (last0, [])

/-- One detection cycle, lines 489-545, with the two `lastDetectedPerson`
roles separated: `cap` is the value the callback's closure captured at
session start (every comparison of line 537 uses it, for the whole
session), `st` is the rendered state entering this cycle (whatever the
setter calls of earlier cycles left there; the callback never reads
it).  Zero detections return early (line 501) leaving `st` unchanged. -/
def runCycleCap (d : Emb → Emb → ℚ) (t : ℚ) (enabled : Bool) (ps : List Person)
    (cap st : Option String) (faces : List Emb) : Option String × List String :=
  if faces = [] then (st, [])
  else faces.foldl (fun acc obs => cycleStep t enabled cap acc (findBestMatch d ps obs)) (st, [])

/-- A session: a sequence of detection cycles (interval callbacks).  The
comparison value `cap` is fixed once at session start by the callback's
stale closure; the rendered `lastDetectedPerson` threads from cycle to
cycle through the setter calls; all emitted appearance events are
collected in order. -/
def runSession (d : Emb → Emb → ℚ) (t : ℚ) (enabled : Bool) (ps : List Person)
    (cap : Option String) : Option String → List (List Emb) → Option String × List String
  | st, [] => (st, [])
  | st, faces :: rest =>
    let c := runCycleCap d t enabled ps cap st faces
    let s := runSession d t enabled ps cap c.1 rest
    (s.1, c.2 ++ s.2)

/-- Enrollment, as implemented identically at `processUploadedImage`
lines 293-327 and `captureFace` lines 400-434: `findIndex` by exact
name; if found, append descriptor and photo to that person (in place);
else push a new person with singleton lists at the end. -/
def enroll : List Person → String → Emb → String → List Person
  | [], n, e, ph => [⟨n, [e], [ph]⟩]
  | p :: ps, n, e, ph =>
    if p.name = n then
      { p with descriptors := p.descriptors ++ [e], photos := p.photos ++ [ph] } :: ps
    else
      p :: enroll ps n e ph

/-- `deletePerson` line 597: `prev.filter((_, i) => i !== index)`,
i.e. drop the element at the given index. -/
def deletePerson : List Person → Nat → List Person
  | [], _ => []
  | _ :: ps, 0 => ps
  | p :: ps, i + 1 => p :: deletePerson ps i

/-- The serialized form of one person (lines 154-158): descriptors
converted from `Float32Array` to plain arrays. -/
structure StoredPerson where
  name : String
  descriptors : List (List ℚ)
  photos : List String
deriving DecidableEq, Repr

/-- Persist-side conversion, lines 154-158:
`descriptors.map(desc => Array.from(desc))`. -/
def serializePersons (ps : List Person) : List StoredPerson :=
  ps.map fun p => ⟨p.name, p.descriptors.map Array.toList, p.photos⟩

/-- Restore-side conversion, lines 127-131:
`new Float32Array(Object.values(desc))` — `Object.values` of a parsed
JSON array yields its elements in index order.  No length of anything is
checked. -/
def restorePersons (raw : List StoredPerson) : List Person :=
  raw.map fun r => ⟨r.name, r.descriptors.map List.toArray, r.photos⟩

/-- The restore effect of lines 121-136.  `none` stands for a persisted
blob on which `JSON.parse` (or the mapping over it) throws: the `catch`
logs the error (`Bool` component `true`) and `knownPersons` keeps its
initial empty value.  Otherwise the restored registry is installed and
nothing is reported. -/
def loadKnownPersons (blob : Option (List StoredPerson)) : List Person × Bool :=
  match blob with
  | none => ([], true)
  | some raw => (restorePersons raw, false)

/-- The persist effect of lines 150-161: runs after every registry
mutation, but writes only when `knownPersons.length > 0`; an empty
registry leaves the previously persisted record in place. -/
def persistEffect (store : Option (List StoredPerson)) (ps : List Person) :
    Option (List StoredPerson) :=
  if 0 < ps.length then some (serializePersons ps) else store

/-- Example distance function for concrete instances: empty observation
arrays are at distance 0 from everything, all others at distance 2. -/
def dEx : Emb → Emb → ℚ := fun _ obs => if obs.size = 0 then 0 else 2

/-- Example registry: one enrolled person. -/
def psEx : List Person := [⟨"Ann", [#[0]], ["ph"]⟩]

/-- Example stored blob whose two embeddings have lengths 2 and 3 and
whose photo list is not aligned with its descriptor list. -/
def corruptRaw : List StoredPerson := [⟨"Ann", [[1, 2], [1, 2, 3]], []⟩]

/-- The candidates visited by the matcher scan for one observation, in
iteration order (oldest-enrolled person first, then oldest-enrolled
descriptor), WITHOUT the sentinel. -/
def flatCands (d : Emb → Emb → ℚ) : List Person → Emb → List MatchCand
  | [], _ => []
  | p :: ps, obs =>
    p.descriptors.map (fun desc => ⟨p.name, d desc obs⟩) ++ flatCands d ps obs

/-- The full candidate list the scan minimizes over: the sentinel
`⟨"unknown", 1⟩` followed by the enrolled candidates in iteration
order. -/
def candList (d : Emb → Emb → ℚ) (ps : List Person) (obs : Emb) : List MatchCand :=
  ⟨"unknown", 1⟩ :: flatCands d ps obs

/-- The comparison step of the scan: keep the running best unless the
new candidate is strictly closer. -/
def scanStep (bm c : MatchCand) : MatchCand :=
  if c.distance < bm.distance then c else bm

lemma foldl_inner_eq (d : Emb → Emb → ℚ) (obs : Emb) (p : Person) (acc : MatchCand) :
    p.descriptors.foldl
      (fun bm' desc => if d desc obs < bm'.distance then ⟨p.name, d desc obs⟩ else bm') acc
      = (p.descriptors.map fun desc => (⟨p.name, d desc obs⟩ : MatchCand)).foldl scanStep acc := by
  rw [List.foldl_map]
  rfl

lemma findBestMatch_eq_aux (d : Emb → Emb → ℚ) (obs : Emb) (ps : List Person) :
    ∀ acc : MatchCand,
      ps.foldl
        (fun bm p =>
          p.descriptors.foldl
            (fun bm' desc => if d desc obs < bm'.distance then ⟨p.name, d desc obs⟩ else bm') bm)
        acc
        = (flatCands d ps obs).foldl scanStep acc := by
  induction ps with
  | nil => intro acc; rfl
  | cons p ps ih =>
    intro acc
    rw [List.foldl_cons, ih, foldl_inner_eq]
    simp only [flatCands, List.foldl_append]

lemma findBestMatch_eq_foldl (d : Emb → Emb → ℚ) (ps : List Person) (obs : Emb) :
    findBestMatch d ps obs = (flatCands d ps obs).foldl scanStep ⟨"unknown", 1⟩ :=
  findBestMatch_eq_aux d obs ps ⟨"unknown", 1⟩

lemma foldl_scanStep_le (l : List MatchCand) : ∀ acc c : MatchCand,
    c ∈ acc :: l → (l.foldl scanStep acc).distance ≤ c.distance := by
  induction l with
  | nil =>
    intro acc c hc
    simp only [List.mem_cons, List.not_mem_nil, or_false] at hc
    subst hc
    exact le_refl _
  | cons b l ih =>
    intro acc c hc
    have h1 : (scanStep acc b).distance ≤ acc.distance := by
      unfold scanStep
      split
      next h => exact le_of_lt h
      next h => exact le_refl _
    have h2 : (scanStep acc b).distance ≤ b.distance := by
      unfold scanStep
      split
      next h => exact le_refl _
      next h => exact le_of_not_lt h
    have hacc : (List.foldl scanStep (scanStep acc b) l).distance ≤ (scanStep acc b).distance :=
      ih _ _ (List.mem_cons_self _ _)
    rw [List.foldl_cons]
    rcases List.mem_cons.mp hc with rfl | hc'
    · exact le_trans hacc h1
    rcases List.mem_cons.mp hc' with rfl | hc''
    · exact le_trans hacc h2
    · exact ih _ _ (List.mem_cons_of_mem _ hc'')

lemma foldl_scanStep_mem (l : List MatchCand) : ∀ acc : MatchCand,
    l.foldl scanStep acc ∈ acc :: l := by
  induction l with
  | nil => intro acc; simp
  | cons b l ih =>
    intro acc
    rw [List.foldl_cons]
    have hs : scanStep acc b = acc ∨ scanStep acc b = b := by
      unfold scanStep
      split
      · exact Or.inr rfl
      · exact Or.inl rfl
    rcases List.mem_cons.mp (ih (scanStep acc b)) with he | hm
    · rcases hs with h' | h'
      · rw [he, h']
        exact List.mem_cons_self _ _
      · rw [he, h']
        exact List.mem_cons_of_mem _ (List.mem_cons_self _ _)
    · exact List.mem_cons_of_mem _ (List.mem_cons_of_mem _ hm)

lemma foldl_scanStep_first (l : List MatchCand) : ∀ acc : MatchCand,
    ∃ l1 l2, acc :: l = l1 ++ (l.foldl scanStep acc) :: l2 ∧
      ∀ c ∈ l1, (l.foldl scanStep acc).distance < c.distance := by
  induction l with
  | nil =>
    intro acc
    exact ⟨[], [], rfl, by simp⟩
  | cons b l ih =>
    intro acc
    rw [List.foldl_cons]
    by_cases hb : b.distance < acc.distance
    · have hs : scanStep acc b = b := by unfold scanStep; simp [hb]
      rw [hs]
      obtain ⟨l1, l2, heq, hlt⟩ := ih b
      refine ⟨acc :: l1, l2, ?_, ?_⟩
      · rw [List.cons_append, ← heq]
      · intro c hc
        rcases List.mem_cons.mp hc with rfl | hc'
        · have hle := foldl_scanStep_le l b _ (List.mem_cons_self _ _)
          exact lt_of_le_of_lt hle hb
        · exact hlt _ hc'
    · have hs : scanStep acc b = acc := by unfold scanStep; simp [hb]
      rw [hs]
      obtain ⟨l1, l2, heq, hlt⟩ := ih acc
      cases l1 with
      | nil =>
        simp only [List.nil_append] at heq
        injection heq with h1 h2
        refine ⟨[], b :: l, ?_, by simp⟩
        rw [List.nil_append, ← h1]
      | cons a l1' =>
        rw [List.cons_append] at heq
        injection heq with h1 h2
        refine ⟨acc :: b :: l1', l2, ?_, ?_⟩
        · rw [List.cons_append, List.cons_append]
          conv_lhs => rw [h2]
        · intro c hc
          have hra : (List.foldl scanStep acc l).distance < acc.distance := by
            have h := hlt a (List.mem_cons_self _ _)
            rwa [← h1] at h
          rcases List.mem_cons.mp hc with rfl | hc'
          · exact hra
          rcases List.mem_cons.mp hc' with rfl | hc''
          · exact lt_of_lt_of_le hra (le_of_not_lt hb)
          · exact hlt c (List.mem_cons_of_mem _ hc'')

lemma foldl_scanStep_cases (l : List MatchCand) : ∀ acc : MatchCand,
    l.foldl scanStep acc = acc ∨
      ((l.foldl scanStep acc).distance < acc.distance ∧ l.foldl scanStep acc ∈ l) := by
  induction l with
  | nil => intro acc; exact Or.inl rfl
  | cons b l ih =>
    intro acc
    rw [List.foldl_cons]
    by_cases hb : b.distance < acc.distance
    · have hs : scanStep acc b = b := by unfold scanStep; simp [hb]
      rw [hs]
      rcases ih b with he | ⟨hlt, hm⟩
      · refine Or.inr ⟨?_, ?_⟩
        · rw [he]; exact hb
        · rw [he]; exact List.mem_cons_self _ _
      · exact Or.inr ⟨lt_trans hlt hb, List.mem_cons_of_mem _ hm⟩
    · have hs : scanStep acc b = acc := by unfold scanStep; simp [hb]
      rw [hs]
      rcases ih acc with he | ⟨hlt, hm⟩
      · exact Or.inl he
      · exact Or.inr ⟨hlt, List.mem_cons_of_mem _ hm⟩

lemma mem_flatCands (d : Emb → Emb → ℚ) (obs : Emb) : ∀ (ps : List Person) (c : MatchCand),
    c ∈ flatCands d ps obs ↔ ∃ p ∈ ps, ∃ x ∈ p.descriptors, c = ⟨p.name, d x obs⟩ := by
  intro ps
  induction ps with
  | nil => intro c; simp [flatCands]
  | cons p ps ih =>
    intro c
    simp only [flatCands, List.mem_append, List.mem_map, ih, List.mem_cons]
    constructor
    · rintro (⟨x, hx, rfl⟩ | ⟨q, hq, x, hx, rfl⟩)
      · exact ⟨p, Or.inl rfl, x, hx, rfl⟩
      · exact ⟨q, Or.inr hq, x, hx, rfl⟩
    · rintro ⟨q, hq, x, hx, rfl⟩
      rcases hq with rfl | hq
      · exact Or.inl ⟨x, hx, rfl⟩
      · exact Or.inr ⟨q, hq, x, hx, rfl⟩

lemma findBestMatch_mem (d : Emb → Emb → ℚ) (ps : List Person) (obs : Emb) :
    findBestMatch d ps obs ∈ candList d ps obs := by
  rw [findBestMatch_eq_foldl]
  exact foldl_scanStep_mem _ _

lemma findBestMatch_le (d : Emb → Emb → ℚ) (ps : List Person) (obs : Emb) :
    ∀ c ∈ candList d ps obs, (findBestMatch d ps obs).distance ≤ c.distance := by
  intro c hc
  rw [findBestMatch_eq_foldl]
  exact foldl_scanStep_le _ _ _ hc

lemma cycleStep_accepted_new (t : ℚ) (last0 : Option String)
    (acc : Option String × List String) (bm : MatchCand)
    (hm : isAccepted bm t = true) (hne : some bm.label ≠ last0) :
    cycleStep t true last0 acc bm = (some bm.label, acc.2 ++ [bm.label]) := by
  simp only [isAccepted] at hm
  simp [cycleStep, hm, hne]

lemma cycleStep_accepted_same (t : ℚ) (last0 : Option String)
    (acc : Option String × List String) (bm : MatchCand)
    (hm : isAccepted bm t = true) (heq : some bm.label = last0) :
    cycleStep t true last0 acc bm = acc := by
  simp only [isAccepted] at hm
  simp [cycleStep, hm, heq]

lemma cycleStep_unmatched (t : ℚ) (enabled : Bool) (last0 : Option String)
    (acc : Option String × List String) (bm : MatchCand)
    (hm : isMatchOf bm t = false) :
    cycleStep t enabled last0 acc bm = (none, acc.2) := by
  simp [cycleStep, hm]

lemma runCycle_nil (d : Emb → Emb → ℚ) (t : ℚ) (enabled : Bool) (ps : List Person)
    (last0 : Option String) :
    runCycle d t enabled ps last0 [] = (last0, []) := by
  simp [runCycle]

lemma runCycle_single (d : Emb → Emb → ℚ) (t : ℚ) (enabled : Bool) (ps : List Person)
    (last0 : Option String) (e : Emb) :
    runCycle d t enabled ps last0 [e]
      = cycleStep t enabled last0 (last0, []) (findBestMatch d ps e) := by
  simp [runCycle]

lemma runCycle_eq_runCycleCap (d : Emb → Emb → ℚ) (t : ℚ) (enabled : Bool)
    (ps : List Person) (last0 : Option String) (faces : List Emb) :
    runCycle d t enabled ps last0 faces = runCycleCap d t enabled ps last0 last0 faces :=
  rfl

lemma runCycleCap_nil (d : Emb → Emb → ℚ) (t : ℚ) (enabled : Bool) (ps : List Person)
    (cap st : Option String) :
    runCycleCap d t enabled ps cap st [] = (st, []) := by
  simp [runCycleCap]

lemma runCycleCap_single (d : Emb → Emb → ℚ) (t : ℚ) (enabled : Bool) (ps : List Person)
    (cap st : Option String) (e : Emb) :
    runCycleCap d t enabled ps cap st [e]
      = cycleStep t enabled cap (st, []) (findBestMatch d ps e) := by
  simp [runCycleCap]

lemma enroll_not_mem (n : String) (e : Emb) (ph : String) :
    ∀ ps : List Person, (∀ q ∈ ps, q.name ≠ n) →
      enroll ps n e ph = ps ++ [⟨n, [e], [ph]⟩] := by
  intro ps
  induction ps with
  | nil => intro _; rfl
  | cons p ps ih =>
    intro h
    have hp : p.name ≠ n := h p (List.mem_cons_self _ _)
    simp only [enroll, if_neg hp, List.cons_append]
    rw [ih (fun q hq => h q (List.mem_cons_of_mem _ hq))]

lemma enroll_append_first (n : String) (e : Emb) (ph : String) (p : Person) (l2 : List Person)
    (hp : p.name = n) :
    ∀ l1 : List Person, (∀ q ∈ l1, q.name ≠ n) →
      enroll (l1 ++ p :: l2) n e ph
        = l1 ++ { p with descriptors := p.descriptors ++ [e], photos := p.photos ++ [ph] } :: l2 := by
  intro l1
  induction l1 with
  | nil =>
    intro _
    simp only [List.nil_append, enroll, if_pos hp]
  | cons a l1 ih =>
    intro h
    have ha : a.name ≠ n := h a (List.mem_cons_self _ _)
    simp only [List.cons_append, enroll, if_neg ha]
    exact congrArg (a :: ·) (ih (fun q hq => h q (List.mem_cons_of_mem _ hq)))

lemma enroll_ne_nil (ps : List Person) (n : String) (e : Emb) (ph : String) :
    enroll ps n e ph ≠ [] := by
  cases ps with
  | nil => simp [enroll]
  | cons p ps =>
    simp only [enroll]
    split <;> simp

/-- Claim C2, counterexample: on the empty registry the matcher returns
the finite sentinel distance 1 — not `+infinity`, whose value would
exceed every rational, in particular 1. -/
theorem C2_counterexample :
    findBestMatch (fun _ _ => 0) [] (#[] : Emb) = ⟨"unknown", 1⟩ ∧
      ¬ 1 < (findBestMatch (fun _ _ => 0) [] (#[] : Emb)).distance := by
  decide

/-- Claim C2 (amended): for every distance function, observation and
threshold in (0,1), matching an empty registry returns the candidate
`⟨"unknown", 1⟩` (distance 1.0, not +infinity) without failing, and the
resulting verdict is `isMatch = false`. -/
theorem C2_empty_registry (d : Emb → Emb → ℚ) (obs : Emb) (t : ℚ)
    (h0 : 0 < t) (h1 : t < 1) :
    findBestMatch d [] obs = ⟨"unknown", 1⟩ ∧
      isMatchOf (findBestMatch d [] obs) t = false := by
  refine ⟨rfl, ?_⟩
  have he : findBestMatch d [] obs = ⟨"unknown", 1⟩ := rfl
  rw [he]
  simp only [isMatchOf, decide_eq_false_iff_not, not_lt]
  linarith

/-- Claim C2 witness: the amended statement at a concrete distance
function, observation and threshold. -/
theorem C2_empty_registry_witness :
    findBestMatch (fun _ _ => 0) [] (#[] : Emb) = ⟨"unknown", 1⟩ ∧
      isMatchOf (findBestMatch (fun _ _ => 0) [] (#[] : Emb)) (1 / 2) = false :=
  C2_empty_registry (fun _ _ => 0) #[] (1 / 2) (by norm_num) (by norm_num)

/-- Claim C3, counterexample: with one enrolled identity "Ann" whose
single descriptor is at distance 2 from the observation, the minimum
distance seen over the scan is 2 with owner "Ann", but the code returns
`⟨"unknown", 1⟩` because the scan is seeded at distance 1.0. -/
theorem C3_counterexample :
    findBestMatch (fun _ _ => 2) [⟨"Ann", [#[0]], ["ph"]⟩] (#[] : Emb) = ⟨"unknown", 1⟩ ∧
      (⟨"unknown", 1⟩ : MatchCand) ≠ ⟨"Ann", 2⟩ := by
  decide

/-- Claim C3 (amended): the scan returns the first minimizer over the
sentinel `⟨"unknown", 1⟩` followed by every (identity, descriptor)
candidate in registry iteration order (oldest-enrolled identity, then
oldest-enrolled descriptor): the result is one of these candidates, its
distance is minimal among all of them, and every candidate strictly
before it in that order is strictly farther — so exact ties are won by
the first-encountered candidate.  Consequently the claimed
minimum-plus-tie-break behavior holds exactly when some enrolled
descriptor is at distance < 1.0; otherwise `⟨"unknown", 1⟩` wins. -/
theorem C3_matcher_first_min (d : Emb → Emb → ℚ) (ps : List Person) (obs : Emb) :
    findBestMatch d ps obs ∈ candList d ps obs ∧
      (∀ c ∈ candList d ps obs, (findBestMatch d ps obs).distance ≤ c.distance) ∧
      (∃ l1 l2, candList d ps obs = l1 ++ findBestMatch d ps obs :: l2 ∧
        ∀ c ∈ l1, (findBestMatch d ps obs).distance < c.distance) := by
  refine ⟨findBestMatch_mem d ps obs, findBestMatch_le d ps obs, ?_⟩
  rw [findBestMatch_eq_foldl]
  exact foldl_scanStep_first _ _

/-- Claim C4: the verdict is exactly `distance < 1 - threshold`
(line 524); a candidate at distance 0.3 is matched at threshold 0.6 and
unmatched at threshold 0.8; and a candidate labelled "unknown" is never
accepted as a match (the gate of line 533), whatever its distance. -/
theorem C4_decision_policy (c : MatchCand) (t q : ℚ) :
    (isMatchOf c t = true ↔ c.distance < 1 - t) ∧
      isMatchOf ⟨"Ann", 3 / 10⟩ (6 / 10) = true ∧
      isMatchOf ⟨"Ann", 3 / 10⟩ (8 / 10) = false ∧
      isAccepted ⟨"unknown", q⟩ t = false := by
  refine ⟨?_, ?_, ?_, ?_⟩
  · simp [isMatchOf]
  · norm_num [isMatchOf]
  · norm_num [isMatchOf]
  · simp [isAccepted]

/-- Claim C10: the matcher never pairs a non-"unknown" label with a
distance ≥ 1.0; when every enrolled descriptor is at distance ≥ 1.0 the
result is exactly `⟨"unknown", 1⟩`, which is unmatched for every
positive threshold. -/
theorem C10_no_far_label (d : Emb → Emb → ℚ) (ps : List Person) (obs : Emb) (t : ℚ) :
    ((findBestMatch d ps obs).label ≠ "unknown" → (findBestMatch d ps obs).distance < 1) ∧
      ((∀ p ∈ ps, ∀ x ∈ p.descriptors, 1 ≤ d x obs) →
        findBestMatch d ps obs = ⟨"unknown", 1⟩) ∧
      (0 < t → (∀ p ∈ ps, ∀ x ∈ p.descriptors, 1 ≤ d x obs) →
        isMatchOf (findBestMatch d ps obs) t = false) := by
  have hkey : (∀ p ∈ ps, ∀ x ∈ p.descriptors, 1 ≤ d x obs) →
      findBestMatch d ps obs = ⟨"unknown", 1⟩ := by
    intro hfar
    rw [findBestMatch_eq_foldl]
    rcases foldl_scanStep_cases (flatCands d ps obs) ⟨"unknown", 1⟩ with he | ⟨hlt, hm⟩
    · exact he
    · exfalso
      obtain ⟨p, hp, x, hx, hc⟩ := (mem_flatCands d obs ps _).mp hm
      have h1 := hfar p hp x hx
      have hlt' : d x obs < 1 := by rw [hc] at hlt; exact hlt
      exact absurd hlt' (not_lt.mpr h1)
  refine ⟨?_, hkey, ?_⟩
  · intro hlabel
    rw [findBestMatch_eq_foldl] at hlabel ⊢
    rcases foldl_scanStep_cases (flatCands d ps obs) ⟨"unknown", 1⟩ with he | ⟨hlt, _⟩
    · rw [he] at hlabel
      exact absurd rfl hlabel
    · exact hlt
  · intro ht hfar
    rw [hkey hfar]
    simp only [isMatchOf, decide_eq_false_iff_not, not_lt]
    linarith

/-- Claim C10 witness: a registry whose only descriptor is at distance 2
from the observation, with threshold 1/2. -/
theorem C10_no_far_label_witness :
    ((findBestMatch (fun _ _ => 2) psEx #[]).label ≠ "unknown" →
        (findBestMatch (fun _ _ => 2) psEx #[]).distance < 1) ∧
      ((∀ p ∈ psEx, ∀ x ∈ p.descriptors, 1 ≤ (fun (_ : Emb) (_ : Emb) => (2 : ℚ)) x #[]) →
        findBestMatch (fun _ _ => 2) psEx #[] = ⟨"unknown", 1⟩) ∧
      (0 < (1 / 2 : ℚ) →
        (∀ p ∈ psEx, ∀ x ∈ p.descriptors, 1 ≤ (fun (_ : Emb) (_ : Emb) => (2 : ℚ)) x #[]) →
        isMatchOf (findBestMatch (fun _ _ => 2) psEx #[]) (1 / 2) = false) :=
  C10_no_far_label (fun _ _ => 2) psEx #[] (1 / 2)

/-- Claim C6: enrolling under a fresh name appends a new identity with
singleton sequences at the end; enrolling under an existing name appends
the descriptor and photo to the first identity of that name, in place;
and two enrollments of "Ann" into a registry without "Ann" yield exactly
one "Ann" entry with `descriptors = [e1, e2]` and `photos = [p1, p2]`. -/
theorem C6_enroll (ps l1 l2 : List Person) (p : Person) (n : String)
    (e e1 e2 : Emb) (ph p1 p2 : String) :
    ((∀ q ∈ ps, q.name ≠ n) → enroll ps n e ph = ps ++ [⟨n, [e], [ph]⟩]) ∧
      ((∀ q ∈ l1, q.name ≠ n) → p.name = n →
        enroll (l1 ++ p :: l2) n e ph
          = l1 ++
              { p with
                descriptors := p.descriptors ++ [e],
                photos := p.photos ++ [ph] } :: l2) ∧
      ((∀ q ∈ ps, q.name ≠ "Ann") →
        enroll (enroll ps "Ann" e1 p1) "Ann" e2 p2 = ps ++ [⟨"Ann", [e1, e2], [p1, p2]⟩]) := by
  refine ⟨fun h => enroll_not_mem n e ph ps h,
    fun h hp => enroll_append_first n e ph p l2 hp l1 h, ?_⟩
  intro h
  rw [enroll_not_mem "Ann" e1 p1 ps h]
  have h2 := enroll_append_first "Ann" e2 p2 ⟨"Ann", [e1], [p1]⟩ [] rfl ps h
  simpa using h2

/-- Claim C7: serializing a registry (Float32Array descriptors flattened
to plain numeric lists) and restoring the result reproduces an equal
registry: same names in order, same descriptor values in order and
count, same photo payloads. -/
theorem C7_roundtrip (ps : List Person) :
    restorePersons (serializePersons ps) = ps := by
  induction ps with
  | nil => rfl
  | cons p ps ih =>
    simp only [serializePersons, restorePersons, List.map_cons, List.cons.injEq] at ih ⊢
    refine ⟨?_, ih⟩
    cases p with
    | mk nm ds phs =>
      simp [List.map_map, Function.comp_def]

/-- Claim C8, counterexample: a stored blob whose two embeddings have
lengths 2 and 3 and whose photo list is empty restores WITHOUT any
`CorruptState` failure: no error is surfaced and the mismatched lengths
flow straight into the registry. -/
theorem C8_counterexample :
    (loadKnownPersons (some corruptRaw)).2 = false ∧
      (loadKnownPersons (some corruptRaw)).1 = [⟨"Ann", [#[1, 2], #[1, 2, 3]], []⟩] ∧
      ((loadKnownPersons (some corruptRaw)).1.map fun p => p.descriptors.map Array.size)
        = [[2, 3]] ∧
      ((loadKnownPersons (some corruptRaw)).1.map
          fun p => (p.descriptors.length, p.photos.length)) = [(2, 0)] := by
  refine ⟨rfl, ?_, by decide, by decide⟩
  decide

/-- Claim C8 (amended): the restore path performs no validation at all —
every structurally parsed blob restores successfully (no error surfaced)
with the stored lengths passed through unchecked — while a parse failure
of the whole blob is caught: the registry stays empty and the error is
surfaced (logged), not swallowed. -/
theorem C8_restore_total (raw : List StoredPerson) :
    loadKnownPersons (some raw) = (restorePersons raw, false) ∧
      loadKnownPersons none = ([], true) ∧
      ((restorePersons raw).map fun p => (p.name, p.descriptors.map Array.size, p.photos.length))
        = raw.map fun r => (r.name, r.descriptors.map List.length, r.photos.length) := by
  refine ⟨rfl, rfl, ?_⟩
  simp [restorePersons, List.map_map, Function.comp_def]

/-- Claim C9, counterexample: deleting the only enrolled person empties
the registry, and the persist effect (guarded by `length > 0`) then
leaves the OLD serialized record in place instead of writing the
serialized empty registry. -/
theorem C9_counterexample :
    persistEffect (some (serializePersons psEx)) (deletePerson psEx 0)
      ≠ some (serializePersons (deletePerson psEx 0)) := by
  decide

/-- Claim C9 (amended): a mutation whose result is non-empty (in
particular every enrollment) writes the serialized current registry
through to the persisted record, but a mutation that empties the
registry leaves the stale previous record in place. -/
theorem C9_write_through (store : Option (List StoredPerson)) (ps ps' : List Person)
    (n : String) (e : Emb) (ph : String) (h : ps ≠ []) :
    persistEffect store ps = some (serializePersons ps) ∧
      (∀ s, persistEffect s (enroll ps' n e ph) = some (serializePersons (enroll ps' n e ph))) ∧
      (∀ s, persistEffect s [] = s) := by
  refine ⟨?_, ?_, fun s => rfl⟩
  · have hl : 0 < ps.length := List.length_pos.mpr h
    simp [persistEffect, hl]
  · intro s
    have hl : 0 < (enroll ps' n e ph).length :=
      List.length_pos.mpr (enroll_ne_nil ps' n e ph)
    simp [persistEffect, hl]

/-- Claim C9 witness: the amended statement at a concrete store and
registry. -/
theorem C9_write_through_witness :
    persistEffect none psEx = some (serializePersons psEx) ∧
      (∀ s, persistEffect s (enroll [] "Bob" #[0] "q")
        = some (serializePersons (enroll [] "Bob" #[0] "q"))) ∧
      (∀ s, persistEffect s [] = s) :=
  C9_write_through none psEx [] "Bob" #[0] "q" (by decide)

/-- Claim C5, counterexample: a cycle reporting zero faces leaves the
debounce state at `some "Ann"` — the code returns early (line 501)
without the reset to empty the claim requires. -/
theorem C5_counterexample :
    runCycle dEx (1 / 2) true psEx (some "Ann") [] = (some "Ann", []) ∧
      (some "Ann" : Option String) ≠ none :=
  ⟨runCycle_nil dEx (1 / 2) true psEx (some "Ann"), by decide⟩

/-- Claim C5 (amended): a detection cycle with zero observed faces ends
without emitting an announcement but leaves `lastAnnouncedIdentity`
UNCHANGED; the reset to empty happens only through a processed face
whose verdict is unmatched. -/
theorem C5_zero_faces (d : Emb → Emb → ℚ) (t : ℚ) (enabled : Bool) (ps : List Person)
    (last0 : Option String) (e : Emb)
    (h : isMatchOf (findBestMatch d ps e) t = false) :
    runCycle d t enabled ps last0 [] = (last0, []) ∧
      runCycle d t enabled ps last0 [e] = (none, []) := by
  refine ⟨runCycle_nil d t enabled ps last0, ?_⟩
  rw [runCycle_single, cycleStep_unmatched _ _ _ _ _ h]

/-- Claim C5 witness: the amended statement at a concrete cycle whose
single face is unmatched. -/
theorem C5_zero_faces_witness :
    runCycle dEx (1 / 2) true psEx (some "Ann") [] = (some "Ann", []) ∧
      runCycle dEx (1 / 2) true psEx (some "Ann") [#[1]] = (none, []) :=
  C5_zero_faces dEx (1 / 2) true psEx (some "Ann") #[1]
    (by norm_num [findBestMatch, psEx, dEx, isMatchOf])

/-- Claim C1, counterexample: three consecutive Ann-match cycles emit
THREE `IdentityAppeared("Ann")` events, not exactly one on the first
cycle: the interval callback compares against the `lastDetectedPerson`
value its closure captured at session start (`none`), never against its
own updates, so the repeat announcements are not suppressed. -/
theorem C1_counterexample :
    (runSession dEx (1 / 2) true psEx none none [[#[]], [#[]], [#[]]]).2
        = ["Ann", "Ann", "Ann"] ∧
      ¬ (runSession dEx (1 / 2) true psEx none none [[#[]], [#[]], [#[]]]).2.length = 1 := by
  have hbm : findBestMatch dEx psEx #[] = ⟨"Ann", 0⟩ := by
    norm_num [findBestMatch, psEx, dEx]
  have hA : isAccepted (⟨"Ann", 0⟩ : MatchCand) (1 / 2) = true := by
    norm_num [isAccepted, isMatchOf]
    decide
  have h1 : ∀ st, runCycleCap dEx (1 / 2) true psEx none st [#[]]
      = (some "Ann", ["Ann"]) := by
    intro st
    rw [runCycleCap_single, hbm, cycleStep_accepted_new _ _ _ _ hA (by simp)]
    rfl
  have hs : runSession dEx (1 / 2) true psEx none none [[#[]], [#[]], [#[]]]
      = (some "Ann", ["Ann", "Ann", "Ann"]) := by
    simp only [runSession, h1]
    simp
  rw [hs]
  exact ⟨rfl, by decide⟩

/-- Claim C1 (amended): the interval callback closes over the
session-start `lastAnnouncedIdentity` (`cap`) and never observes its own
updates (stale closure), so with announcements enabled an accepted match
whose name differs from the SESSION-START value emits an event and sets
the rendered state to that name, and an accepted match equal to the
session-start value emits nothing; repeats are NOT suppressed across
cycles.  From a fresh session, `[Ann-match, Ann-match, Ann-match]` emits
three events (one per cycle), and `[Ann-match, none, Ann-match]` emits
two whether the intervening no-match cycle has zero faces or one
unmatched face. -/
theorem C1_debounce (d : Emb → Emb → ℚ) (t : ℚ) (ps : List Person) (e e' : Emb)
    (hA : isAccepted (findBestMatch d ps e) t = true)
    (hU : isMatchOf (findBestMatch d ps e') t = false) :
    runSession d t true ps none none [[e], [e], [e]]
        = (some (findBestMatch d ps e).label,
            [(findBestMatch d ps e).label, (findBestMatch d ps e).label,
              (findBestMatch d ps e).label]) ∧
      runSession d t true ps none none [[e], [], [e]]
        = (some (findBestMatch d ps e).label,
            [(findBestMatch d ps e).label, (findBestMatch d ps e).label]) ∧
      runSession d t true ps none none [[e], [e'], [e]]
        = (some (findBestMatch d ps e).label,
            [(findBestMatch d ps e).label, (findBestMatch d ps e).label]) ∧
      (∀ (cap : Option String) (acc : Option String × List String) (bm : MatchCand),
        isAccepted bm t = true →
          (some bm.label ≠ cap →
            cycleStep t true cap acc bm = (some bm.label, acc.2 ++ [bm.label])) ∧
          (some bm.label = cap → cycleStep t true cap acc bm = acc)) := by
  have h1 : ∀ st, runCycleCap d t true ps none st [e]
      = (some (findBestMatch d ps e).label, [(findBestMatch d ps e).label]) := by
    intro st
    rw [runCycleCap_single, cycleStep_accepted_new _ _ _ _ hA (by simp)]
    rfl
  have h3 : ∀ st, runCycleCap d t true ps none st [e'] = (none, []) := by
    intro st
    rw [runCycleCap_single, cycleStep_unmatched _ _ _ _ _ hU]
  refine ⟨?_, ?_, ?_, ?_⟩
  · simp only [runSession, h1]
    simp
  · simp only [runSession, h1, runCycleCap_nil]
    simp
  · simp only [runSession, h1, h3]
    simp
  · intro cap acc bm hAcc
    exact ⟨fun hne => cycleStep_accepted_new t cap acc bm hAcc hne,
      fun heq => cycleStep_accepted_same t cap acc bm hAcc heq⟩

/-- Claim C1 witness: the amended statement at a concrete registry,
threshold 1/2, a matched observation `#[]` and an unmatched observation
`#[1]`, starting from a fresh session. -/
theorem C1_debounce_witness :
    runSession dEx (1 / 2) true psEx none none [[#[]], [#[]], [#[]]]
        = (some (findBestMatch dEx psEx #[]).label,
            [(findBestMatch dEx psEx #[]).label, (findBestMatch dEx psEx #[]).label,
              (findBestMatch dEx psEx #[]).label]) ∧
      runSession dEx (1 / 2) true psEx none none [[#[]], [], [#[]]]
        = (some (findBestMatch dEx psEx #[]).label,
            [(findBestMatch dEx psEx #[]).label, (findBestMatch dEx psEx #[]).label]) ∧
      runSession dEx (1 / 2) true psEx none none [[#[]], [#[1]], [#[]]]
        = (some (findBestMatch dEx psEx #[]).label,
            [(findBestMatch dEx psEx #[]).label, (findBestMatch dEx psEx #[]).label]) ∧
      (∀ (cap : Option String) (acc : Option String × List String) (bm : MatchCand),
        isAccepted bm (1 / 2) = true →
          (some bm.label ≠ cap →
            cycleStep (1 / 2) true cap acc bm = (some bm.label, acc.2 ++ [bm.label])) ∧
          (some bm.label = cap → cycleStep (1 / 2) true cap acc bm = acc)) :=
  C1_debounce dEx (1 / 2) psEx #[] #[1]
    (by norm_num [findBestMatch, psEx, dEx, isAccepted, isMatchOf]; decide)
    (by norm_num [findBestMatch, psEx, dEx, isMatchOf])

end FacialRec
